import Mathlib

/-!
Verification development for the `random` repository (file `src/idb.js`).

The file embeds, shallowly, the JavaScript value fragment that the
program's data actually uses, and the operations of the classes
`LSDB` / `LSQuery` / `LSDBQuery` / `LSDBUtil` / `IDb`.

Modelling conventions, stated once here:

* JavaScript values are modelled by `JSVal`.  Numbers are modelled as
  integers (`Int`): every literal number appearing in the repository's
  data and examples is an integer, and none of the claims involve
  fractional values.  Objects are association lists of string keys; the
  programs under verification only ever create objects with pairwise
  distinct keys, which is also an invariant of real JavaScript objects.
* Property access models own data properties of plain JSON-like objects.
  Prototype-inherited properties (such as `toString`) and the exotic
  index/`length` properties of primitive strings are outside the
  fragment; no claim exercises them.
* `o == e` (loose equality), `o === e` (strict equality) and the four
  relational operators are translated from the ECMAScript algorithms,
  restricted to the fragment above.  `ToNumber` on strings is modelled
  for optional-sign decimal integer literals (and the empty string,
  which converts to 0); all other strings convert to NaN, modelled as
  `none`.  Loose/strict equality of two objects is reference equality
  in JavaScript; the model returns `false`, which is the case of two
  distinct object values (no claim compares an object with itself).
* A thrown `TypeError` is modelled by `Option`: `none` means the
  JavaScript computation throws.
-/

inductive JSVal where
  | vNull
  | vUndefined
  | vBool (b : Bool)
  | vNum (n : Int)
  | vStr (s : String)
  | vObj (fields : List (String × JSVal))

/-- Documents, and generally JavaScript object contents: ordered field lists. -/
abbrev Doc := List (String × JSVal)

/-- JavaScript truthiness of a value (ToBoolean). -/
def JSVal.truthy : JSVal → Bool
  | .vNull => false
  | .vUndefined => false
  | .vBool b => b
  | .vNum n => n != 0
  | .vStr s => s != ""
  | .vObj _ => true

/-- First-occurrence lookup in an association list, i.e. own-property read. -/
def alookup {α : Type} : List (String × α) → String → Option α
  | [], _ => none
  | p :: rest, k => if p.1 = k then some p.2 else alookup rest k

/-- Decimal digits to a number; `none` when the digit list is malformed. -/
def parseDigitsAux : List Char → Nat → Option Nat
  | [], acc => some acc
  | c :: cs, acc =>
    if c.isDigit then parseDigitsAux cs (acc * 10 + (c.toNat - 48)) else none

/-- Nonempty decimal digit strings only. -/
def parseDigits : List Char → Option Nat
  | [] => none
  | cs => parseDigitsAux cs 0

/-- ECMAScript ToNumber on a string, restricted to the integer fragment:
the empty string converts to 0, an optional-sign decimal integer literal
converts to its value, everything else is NaN (`none`). -/
def jsStringToNumber (s : String) : Option Int :=
  match s.toList with
  | [] => some 0
  | '-' :: cs => (parseDigits cs).map (fun n => -(n : Int))
  | '+' :: cs => (parseDigits cs).map (fun n => (n : Int))
  | cs => (parseDigits cs).map (fun n => (n : Int))

/-- ECMAScript ToNumber; `none` is NaN.  A plain object converts via
ToPrimitive to the string "[object Object]", which is NaN. -/
def jsToNumber : JSVal → Option Int
  | .vNull => some 0
  | .vUndefined => none
  | .vBool b => some (if b then 1 else 0)
  | .vNum n => some n
  | .vStr s => jsStringToNumber s
  | .vObj _ => none

/-- ToPrimitive for the fragment: a plain object without custom `valueOf`
or `toString` converts to the string "[object Object]". -/
def jsToPrimitive : JSVal → JSVal
  | .vObj _ => .vStr "[object Object]"
  | v => v

/-- Normalisation used by loose equality once null/undefined and the
object/object case are excluded: booleans convert to numbers and objects
to their primitive string. -/
def jsEqNormalize : JSVal → JSVal
  | .vBool b => .vNum (if b then 1 else 0)
  | .vObj _ => .vStr "[object Object]"
  | v => v

/-- Loose equality of number/string primitives (the residual case of the
IsLooselyEqual algorithm): a number meets a string through ToNumber. -/
def primEq : JSVal → JSVal → Bool
  | .vNum x, .vNum y => x == y
  | .vStr s, .vStr t => s == t
  | .vNum x, .vStr t =>
    match jsStringToNumber t with
    | some y => x == y
    | none => false
  | .vStr s, .vNum y =>
    match jsStringToNumber s with
    | some x => x == y
    | none => false
  | _, _ => false

/-- JavaScript loose equality `==` (IsLooselyEqual) on the fragment.
null and undefined equal exactly each other; two objects compare by
reference (modelled as distinct, hence `false`); otherwise booleans and
objects normalise and number/string pairs meet through ToNumber. -/
def jsLooseEq : JSVal → JSVal → Bool
  | .vNull, .vNull => true
  | .vNull, .vUndefined => true
  | .vUndefined, .vNull => true
  | .vUndefined, .vUndefined => true
  | .vNull, _ => false
  | _, .vNull => false
  | .vUndefined, _ => false
  | _, .vUndefined => false
  | .vObj _, .vObj _ => false
  | a, b => primEq (jsEqNormalize a) (jsEqNormalize b)

/-- JavaScript strict equality `===` on the fragment (objects by
reference, modelled as distinct object values). -/
def jsStrictEq : JSVal → JSVal → Bool
  | .vNull, .vNull => true
  | .vUndefined, .vUndefined => true
  | .vBool a, .vBool b => a == b
  | .vNum x, .vNum y => x == y
  | .vStr s, .vStr t => s == t
  | _, _ => false

/-- The abstract relational comparison (IsLessThan): two strings compare
lexicographically, otherwise both sides convert with ToNumber and `none`
(a NaN operand) makes the comparison undefined. -/
def jsLessThan (a b : JSVal) : Option Bool :=
  match jsToPrimitive a, jsToPrimitive b with
  | .vStr s, .vStr t => some (decide (s < t))
  | pa, pb =>
    match jsToNumber pa, jsToNumber pb with
    | some x, some y => some (decide (x < y))
    | _, _ => none

/-- JavaScript `a < b`: an undefined relational result yields `false`. -/
def jsLt (a b : JSVal) : Bool := (jsLessThan a b).getD false

/-- JavaScript `a > b`: the relational comparison with swapped operands. -/
def jsGt (a b : JSVal) : Bool := (jsLessThan b a).getD false

/-- JavaScript `a <= b`: true exactly when `b < a` is defined and false. -/
def jsLe (a b : JSVal) : Bool :=
  match jsLessThan b a with
  | some r => !r
  | none => false

/-- JavaScript `a >= b`: true exactly when `a < b` is defined and false. -/
def jsGe (a b : JSVal) : Bool :=
  match jsLessThan a b with
  | some r => !r
  | none => false

/-- Translation of `LSDBQuery._compare` (src/idb.js lines 913-923): a
switch on the operator string, whose default case is loose equality. -/
def LSDBQuery.compareOp (val : JSVal) (op : String) (expected : JSVal) : Bool :=
  if op = "eq" then jsLooseEq val expected
  else if op = "neq" then !jsLooseEq val expected
  else if op = "lt" then jsLt val expected
  else if op = "lte" then jsLe val expected
  else if op = "gt" then jsGt val expected
  else if op = "gte" then jsGe val expected
  else jsLooseEq val expected

/-- One step of `LSDBQuery._getNestedValue`'s reducer
`(o, k) => (o && k in o) ? o[k] : undefined`:  a falsy accumulator
short-circuits to undefined; on a truthy object, `k in o` tests key
presence and `o[k]` reads the field; on a truthy non-object the `in`
operator throws a TypeError (`none`). -/
def LSDBQuery.getNestedStep (o : JSVal) (k : String) : Option JSVal :=
  if o.truthy then
    match o with
    | .vObj fields => some ((alookup fields k).getD .vUndefined)
    | _ => none
  else some .vUndefined

/-- The `reduce` loop of `LSDBQuery._getNestedValue` over the split
path components; a thrown TypeError aborts the whole reduction. -/
def LSDBQuery.resolveParts : JSVal → List String → Option JSVal
  | o, [] => some o
  | o, k :: rest =>
    match LSDBQuery.getNestedStep o k with
    | some o' => LSDBQuery.resolveParts o' rest
    | none => none

/-- Accumulator loop for `splitDot`: collects the current component's
characters (in reverse) and emits a component at each separator. -/
def splitDotAux : List Char → List Char → List String
  | [], acc => [String.mk acc.reverse]
  | c :: cs, acc =>
    if c = '.' then String.mk acc.reverse :: splitDotAux cs []
    else splitDotAux cs (c :: acc)

/-- JavaScript `prop.split(".")` for the one-character separator: the
string is cut at every dot, keeping empty components, and the empty
string splits to `[""]`. -/
def splitDot (s : String) : List String := splitDotAux s.toList []

/-- Translation of `LSDBQuery._getNestedValue` (src/idb.js lines
909-911): split the dot path and reduce over its components. -/
def LSDBQuery.getNestedValue (obj : JSVal) (prop : String) : Option JSVal :=
  LSDBQuery.resolveParts obj (splitDot prop)

/-!
The `LSDB` store.  The class wraps `localStorage`: every mutator routes
through `_load` (`JSON.parse` of the stored string, `[]` when the key is
absent) and `_save` (`JSON.stringify`).  The model therefore represents
the store state directly as an association list from bucket name to its
document list; the `prefix` namespacing is a bijective renaming of the
keys and is abstracted away, and `localStorage` key order is modelled as
insertion order.  Because every stored value passes through
`JSON.stringify`/`JSON.parse`, serialisation is the identity on the
modelled states and is not represented explicitly.
-/

abbrev LSDBState := List (String × List Doc)

/-- Assignment in an association list, as JavaScript property assignment
and `localStorage.setItem` behave: an existing key keeps its position
and receives the new value, a new key is appended at the end. -/
def assocSet {α : Type} (l : List (String × α)) (k : String) (v : α) : List (String × α) :=
  if l.any (fun p => p.1 = k) then l.map (fun p => if p.1 = k then (k, v) else p)
  else l ++ [(k, v)]

/-- Key removal (`localStorage.removeItem` / `deleteBucket`). -/
def assocRemove {α : Type} (l : List (String × α)) (k : String) : List (String × α) :=
  l.filter (fun p => !decide (p.1 = k))

/-- Translation of `LSDB._ensure` (src/idb.js lines 468-473): create the
bucket's key with an empty list when it is absent. -/
def LSDB.ensure (st : LSDBState) (b : String) : LSDBState :=
  if (alookup st b).isSome then st else st ++ [(b, [])]

/-- Translation of `LSDB._load`: `JSON.parse` of the stored string, or
`[]` when the key is absent. -/
def LSDB.load (st : LSDBState) (b : String) : List Doc :=
  (alookup st b).getD []

/-- Translation of `LSDB._save`: store the document list under the key. -/
def LSDB.save (st : LSDBState) (b : String) (docs : List Doc) : LSDBState :=
  assocSet st b docs

/-- Translation of `LSDB.listBuckets` (src/idb.js lines 479-491): the
bucket names present in the store. -/
def LSDB.listBuckets (st : LSDBState) : List String :=
  st.map Prod.fst

/-- Translation of `LSDB.createBucket`: idempotent `_ensure`. -/
def LSDB.createBucket (st : LSDBState) (b : String) : LSDBState :=
  LSDB.ensure st b

/-- Translation of `LSDB.deleteBucket`: remove the bucket's key. -/
def LSDB.deleteBucket (st : LSDBState) (b : String) : LSDBState :=
  assocRemove st b

/-- The object spread `{...base, ...item}` restricted to two operands:
the fields of `item` are assigned left to right onto `base`. -/
def spreadFields (base item : Doc) : Doc :=
  item.foldl (fun acc p => assocSet acc p.1 p.2) base

/-- Translation of `bucket(...).insert` (src/idb.js lines 511-517).
`crypto.randomUUID()` is modelled by the oracle argument `gen`: the
generated string for this call.  The new item `{ id: gen, ...item }`
lets a caller-supplied `id` field overwrite the generated one.  The
accessor `bucket(bucketName)` runs `_ensure` first (lines 506-508). -/
def LSDB.insert (st : LSDBState) (b : String) (gen : String) (item : Doc) : LSDBState × Doc :=
  let st1 := LSDB.ensure st b
  let list := LSDB.load st1 b
  let newItem := spreadFields [("id", .vStr gen)] item
  (LSDB.save st1 b (list ++ [newItem]), newItem)

/-- Translation of `bucket(...).all` (src/idb.js lines 519-521): the
full document list, after the accessor's `_ensure`.  The state after
the call is returned alongside the result. -/
def LSDB.allDocs (st : LSDBState) (b : String) : LSDBState × List Doc :=
  let st1 := LSDB.ensure st b
  (st1, LSDB.load st1 b)

/-- Translation of `bucket(...).filterBy` (src/idb.js lines 523-529):
`Object.entries(props).every(([k, v]) => item[k] === v)` — direct
(non-nested) own-property reads compared with strict equality. -/
def LSDB.filterBy (st : LSDBState) (b : String) (props : Doc) : LSDBState × List Doc :=
  let st1 := LSDB.ensure st b
  (st1, (LSDB.load st1 b).filter
    (fun item => props.all (fun p => jsStrictEq ((alookup item p.1).getD .vUndefined) p.2)))

/-- Replace the first list element satisfying `pred` by its shallow
merge `{...elem, ...newData}`; `none` when no element matches.  This is
the `findIndex` / `list[i] = {...list[i], ...newData}` step of
`bucket(...).update`. -/
def updateFirst (pred : Doc → Bool) (newData : Doc) : List Doc → Option (List Doc × Doc)
  | [] => none
  | d :: rest =>
    if pred d then some (spreadFields d newData :: rest, spreadFields d newData)
    else
      match updateFirst pred newData rest with
      | some (rest', m) => some (d :: rest', m)
      | none => none

/-- Translation of `bucket(...).update` (src/idb.js lines 531-540):
find the first document whose `id` field is strictly equal to `id`;
return `false` (here `none`) without saving when there is none, else
shallow-merge `newData` over it, save, and return the merged document. -/
def LSDB.update (st : LSDBState) (b : String) (id : JSVal) (newData : Doc) :
    LSDBState × Option Doc :=
  let st1 := LSDB.ensure st b
  match updateFirst (fun x => jsStrictEq ((alookup x "id").getD .vUndefined) id) newData
      (LSDB.load st1 b) with
  | none => (st1, none)
  | some (list', merged) => (LSDB.save st1 b list', some merged)

/-- Translation of `bucket(...).delete` (src/idb.js lines 542-547):
keep the documents whose `id` is not strictly equal to `id`. -/
def LSDB.deleteDoc (st : LSDBState) (b : String) (id : JSVal) : LSDBState × Bool :=
  let st1 := LSDB.ensure st b
  (LSDB.save st1 b ((LSDB.load st1 b).filter
    (fun x => !jsStrictEq ((alookup x "id").getD .vUndefined) id)), true)

/-!
The `LSDBQuery` builder (src/idb.js lines 861-924) and the exception-
aware evaluators for `Array.prototype.every` / `some` / `filter`: a
`none` models a thrown TypeError propagating out of the callback.
-/

/-- A predicate of the query builder: `{prop, op, value}`.  The `logic`
field the source also stores is the constant string "AND" and is never
read. -/
structure LSFilter where
  prop : String
  op : String
  value : JSVal

/-- The accumulated state of an `LSDBQuery`: target bucket, AND list,
and OR groups. -/
structure LSDBQuery where
  bucket : String
  filters : List LSFilter
  orGroups : List (List LSFilter)

/-- Translation of `new LSDBQuery(bucket)`. -/
def LSDBQuery.new (bucket : String) : LSDBQuery :=
  ⟨bucket, [], []⟩

/-- Translation of `where(prop, op, value)`: append to the AND list. -/
def LSDBQuery.whereF (q : LSDBQuery) (prop op : String) (value : JSVal) : LSDBQuery :=
  { q with filters := q.filters ++ [⟨prop, op, value⟩] }

/-- Translation of `orWhere(prop, op, value)`: append a one-predicate
OR group. -/
def LSDBQuery.orWhere (q : LSDBQuery) (prop op : String) (value : JSVal) : LSDBQuery :=
  { q with orGroups := q.orGroups ++ [[⟨prop, op, value⟩]] }

/-- Translation of `orGroup(groupFilters)`: append a multi-predicate
OR group. -/
def LSDBQuery.orGroup (q : LSDBQuery) (g : List LSFilter) : LSDBQuery :=
  { q with orGroups := q.orGroups ++ [g] }

/-- Evaluate one predicate on a document: resolve the dot path, then
compare; a TypeError in resolution propagates. -/
def LSDBQuery.evalFilter (item : Doc) (f : LSFilter) : Option Bool :=
  (LSDBQuery.getNestedValue (.vObj item) f.prop).map
    (fun v => LSDBQuery.compareOp v f.op f.value)

/-- `Array.prototype.every` with a callback that may throw: evaluates
left to right, short-circuits on `false`, aborts on a throw. -/
def allE {α : Type} (f : α → Option Bool) : List α → Option Bool
  | [] => some true
  | x :: rest =>
    match f x with
    | none => none
    | some false => some false
    | some true => allE f rest

/-- `Array.prototype.some` with a callback that may throw: evaluates
left to right, short-circuits on `true`, aborts on a throw. -/
def anyE {α : Type} (f : α → Option Bool) : List α → Option Bool
  | [] => some false
  | x :: rest =>
    match f x with
    | none => none
    | some true => some true
    | some false => anyE f rest

/-- `Array.prototype.filter` with a predicate that may throw. -/
def filterE {α : Type} (f : α → Option Bool) : List α → Option (List α)
  | [] => some []
  | x :: rest =>
    match f x with
    | none => none
    | some b => (filterE f rest).map (fun r => if b then x :: r else r)

/-- Translation of `LSDBQuery._matchesAnd` (src/idb.js lines 884-890):
every AND predicate must hold. -/
def LSDBQuery.matchesAnd (q : LSDBQuery) (item : Doc) : Option Bool :=
  allE (LSDBQuery.evalFilter item) q.filters

/-- Translation of `LSDBQuery._matchesOr` (src/idb.js lines 892-899):
vacuously true without OR groups, else some group must contain some
holding predicate. -/
def LSDBQuery.matchesOr (q : LSDBQuery) (item : Doc) : Option Bool :=
  if q.orGroups.isEmpty then some true
  else anyE (fun g => anyE (LSDBQuery.evalFilter item) g) q.orGroups

/-- The combined predicate `this._matchesAnd(item) && this._matchesOr(item)`
of `execute`, with JavaScript's short-circuit evaluation. -/
def LSDBQuery.matches (q : LSDBQuery) (item : Doc) : Option Bool :=
  match q.matchesAnd item with
  | none => none
  | some false => some false
  | some true => q.matchesOr item

/-- Translation of `LSDBQuery.execute` (src/idb.js lines 901-907): load
the bucket (through the accessor, which ensures it) and filter. -/
def LSDBQuery.execute (st : LSDBState) (q : LSDBQuery) : LSDBState × Option (List Doc) :=
  let a := LSDB.allDocs st q.bucket
  (a.1, filterE q.matches a.2)

/-!
The `LSQuery` sequence wrapper (src/idb.js lines 406-443).  Only the
operations the claims are about are embedded.  `Array.prototype.sort`
is specified by ECMAScript (since ES2019) to be stable and to produce a
list sorted with respect to the comparator; for the comparator
`(a, b) => x > y ? 1 : x < y ? -1 : 0` over a linearly ordered key this
determines the output uniquely, and the model realises it with the
stable `List.mergeSort`.
-/

structure LSQuery (α : Type) where
  data : List α

/-- Translation of `LSQuery.orderBy(selector)` (src/idb.js lines
415-421): stable ascending sort by the selected key. -/
def LSQuery.orderBy {α K : Type} [LinearOrder K] (q : LSQuery α) (sel : α → K) : LSQuery α :=
  ⟨q.data.mergeSort (fun a b => decide (sel a ≤ sel b))⟩

/-- Translation of `LSQuery.orderByDescending(selector)` (src/idb.js
lines 423-429): stable descending sort by the selected key. -/
def LSQuery.orderByDescending {α K : Type} [LinearOrder K] (q : LSQuery α) (sel : α → K) :
    LSQuery α :=
  ⟨q.data.mergeSort (fun a b => decide (sel b ≤ sel a))⟩

/-!
`LSDBUtil.dump` and `LSDBUtil.import` (src/idb.js lines 790-821).
`dump` serialises the mapping from bucket name to document list with
`JSON.stringify`, and `import` parses it back; on the modelled states
(JSON-representable documents) this round trip is the identity, so the
snapshot is modelled as the mapping itself.  `import` with
`overwrite = true` deletes and recreates each snapshot bucket and
re-inserts its documents through `bucket(...).insert`; the inserts'
`crypto.randomUUID()` calls are an oracle `gens`, consumed in call
order.
-/

/-- Translation of `LSDBUtil.dump()` with no bucket argument: every
bucket of the store, in `listBuckets` order, mapped to
`bucket(b).all().toList()`.  Every listed bucket exists, so the
accessor's `_ensure` does not change the state. -/
def LSDBUtil.dump (st : LSDBState) : List (String × List Doc) :=
  (LSDB.listBuckets st).map (fun b => (b, (LSDB.allDocs st b).2))

/-- The inner `data[bucketName].forEach(item => ... insert(item))` loop
of `LSDBUtil.import`, threading the generator oracle's position. -/
def LSDBUtil.insertLoop (st : LSDBState) (b : String) (gens : Nat → String) (c : Nat) :
    List Doc → LSDBState × Nat
  | [] => (st, c)
  | item :: rest =>
    LSDBUtil.insertLoop (LSDB.insert st b (gens c) item).1 b gens (c + 1) rest

/-- Translation of `LSDBUtil.import(jsonStr, overwrite = true)` for a
successfully parsed snapshot: each snapshot bucket is deleted,
recreated, and its documents re-inserted in order. -/
def LSDBUtil.overwriteImport (snap : List (String × List Doc)) (st : LSDBState)
    (gens : Nat → String) : LSDBState :=
  (snap.foldl
    (fun acc p =>
      let st1 := LSDB.deleteBucket acc.1 p.1
      let st2 := LSDB.createBucket st1 p.1
      LSDBUtil.insertLoop st2 p.1 gens acc.2 p.2)
    (st, 0)).1

/-!
The `IDb` class (src/idb.js lines 66-231) wraps the browser's
IndexedDB.  Object stores are created with `keyPath: "id"`; the model
represents a database as an association list from store name to its
record list and restricts itself to records that carry an explicit
`id` field (the `autoIncrement` key generator is not exercised by any
claim).  IndexedDB keeps records ordered by key; the claims below only
depend on which records a store holds, and the model keeps insertion
order.  Relevant IndexedDB semantics, mirrored from the W3C
specification:

* `store.put(data)` is insert-or-replace by key;
* `store.add(data)` fails with a `ConstraintError` when the key exists;
  an unhandled failed request aborts its whole transaction;
* a transaction commits automatically once no requests are pending;
  an exception that the surrounding code catches (as
  `IDb.transaction`'s `try { callback(stores) } catch (err) { reject(err) }`
  does) neither aborts the transaction nor discards requests that were
  already queued.
-/

abbrev IDbState := List (String × List Doc)

/-- The record key under `keyPath: "id"`. -/
def docKey (d : Doc) : JSVal :=
  (alookup d "id").getD .vUndefined

/-- IndexedDB `put`: replace the record with the same key, or append. -/
def IDb.put (recs : List Doc) (data : Doc) : List Doc :=
  if recs.any (fun r => jsStrictEq (docKey r) (docKey data)) then
    recs.map (fun r => if jsStrictEq (docKey r) (docKey data) then data else r)
  else recs ++ [data]

/-- Translation of `IDb.update` (src/idb.js lines 146-153): `getStore`
throws when the bucket does not exist, otherwise `store.put(data)`
inserts or replaces by key. -/
def IDb.update (st : IDbState) (b : String) (data : Doc) : Except String IDbState :=
  match alookup st b with
  | none => .error "Bucket does not exist"
  | some recs => .ok (assocSet st b (IDb.put recs data))

/-- An operation queued by a transaction callback on one of its stores. -/
inductive TxOp where
  | add (bucket : String) (data : Doc)
  | putOp (bucket : String) (data : Doc)
  | delOp (bucket : String) (id : JSVal)

/-- Apply one queued request; `none` is a failed request (for `add`, a
`ConstraintError` on a duplicate key), which aborts the transaction. -/
def IDb.applyTxOp (st : IDbState) : TxOp → Option IDbState
  | .add b data =>
    match alookup st b with
    | none => none
    | some recs =>
      if recs.any (fun r => jsStrictEq (docKey r) (docKey data)) then none
      else some (assocSet st b (recs ++ [data]))
  | .putOp b data => (alookup st b).map (fun recs => assocSet st b (IDb.put recs data))
  | .delOp b id =>
    (alookup st b).map (fun recs =>
      assocSet st b (recs.filter (fun r => !jsStrictEq (docKey r) id)))

/-- Translation of `IDb.transaction` (src/idb.js lines 174-189).  The
callback is shallowly embedded as the list of requests it queues plus
the error it optionally throws afterwards.  `db.transaction(buckets)`
throws `NotFoundError` inside the promise executor when a named store
is missing (the promise rejects, nothing is applied).  Otherwise the
queued requests are processed when control returns to the event loop:
if all succeed the transaction auto-commits — even when the callback
threw, because the `catch` block only rejects the promise and does not
abort — and if one fails the transaction aborts entirely.  The promise
settles with the first outcome: the callback's error when it threw,
else the transaction result. -/
def IDb.transaction (st : IDbState) (buckets : List String) (ops : List TxOp)
    (thrown : Option String) : IDbState × Except String Bool :=
  if buckets.all (fun b => (alookup st b).isSome) then
    match ops.foldlM IDb.applyTxOp st with
    | some st1 =>
      (st1, match thrown with
            | some e => .error e
            | none => .ok true)
    | none => (st, .error ((thrown).getD "AbortError"))
  else (st, .error "NotFoundError")

/-- Translation of `IDb.filter` (src/idb.js lines 164-172): `getAll`
throws through `getStore` when the bucket is missing; otherwise each
filter entry's key is resolved with the reducer
`(o, k) => o ? o[k] : undefined` — which, unlike the `in`-based
resolver of `LSDBQuery`, never throws on the fragment, since property
access on a truthy primitive's own data properties just yields
undefined — and compared with loose equality. -/
def IDb.looseStep (o : JSVal) (k : String) : JSVal :=
  if o.truthy then
    match o with
    | .vObj fields => (alookup fields k).getD .vUndefined
    | _ => .vUndefined
  else .vUndefined

/-- The resolution loop of `IDb.filter`'s reducer over the split path. -/
def IDb.looseResolve (item : JSVal) (key : String) : JSVal :=
  (splitDot key).foldl IDb.looseStep item

/-- Translation of `IDb.filter` itself: keep the records every one of
whose filter entries loosely equals the resolved value. -/
def IDb.filter (st : IDbState) (b : String) (filterObj : Doc) : Except String (List Doc) :=
  match alookup st b with
  | none => .error "Bucket does not exist"
  | some recs =>
    .ok (recs.filter (fun item =>
      filterObj.all (fun p => jsLooseEq (IDb.looseResolve (.vObj item) p.1) p.2)))

/-!
Spec-side definitions.  `resolveAmendedSpec` follows the words of the
amended version of the resolution claim, to be proved equal to the
source-translated resolver.  `declMatches` states, declaratively, the
spec's description of which documents a query keeps.  `docWF` / `stWF`
delimit the store states every one of whose documents was produced by
`insert` (id field first, no duplicate field names, JSON-representable
values), the invariant under which the dump/import round trip is exact.
-/

/-- Resolution as the amended claim words it: at each step, a mapping
lacking the key, or any falsy node, stops with the undefined sentinel;
a present key descends; a truthy non-mapping raises a TypeError. -/
def resolveAmendedSpec : JSVal → List String → Option JSVal
  | v, [] => some v
  | v, k :: rest =>
    match v with
    | .vObj fields =>
      match alookup fields k with
      | some w => resolveAmendedSpec w rest
      | none => some .vUndefined
    | other => if other.truthy then none else some .vUndefined

/-- Declarative match condition of the query claims: every AND
predicate holds, and, when OR groups are present, some group contains
some holding predicate. -/
def LSDBQuery.declMatches (q : LSDBQuery) (d : Doc) : Prop :=
  (∀ f ∈ q.filters, LSDBQuery.evalFilter d f = some true) ∧
  (q.orGroups.isEmpty = true ∨ ∃ g ∈ q.orGroups, ∃ f ∈ g, LSDBQuery.evalFilter d f = some true)

instance (q : LSDBQuery) (d : Doc) : Decidable (LSDBQuery.declMatches q d) := by
  unfold LSDBQuery.declMatches
  exact inferInstance

mutual

/-- JSON-representable values: no undefined anywhere (an object field
holding undefined is dropped by `JSON.stringify`, so such values never
reach `localStorage`). -/
def jsonVal : JSVal → Bool
  | .vNull => true
  | .vUndefined => false
  | .vBool _ => true
  | .vNum _ => true
  | .vStr _ => true
  | .vObj fields => jsonFields fields

/-- JSON-representability of an object's field list. -/
def jsonFields : List (String × JSVal) → Bool
  | [] => true
  | p :: rest => jsonVal p.2 && jsonFields rest

end

/-- Documents as `insert` produces them: the `id` field first, pairwise
distinct field names, JSON-representable values. -/
def docWF : Doc → Bool
  | [] => false
  | p :: rest =>
    decide (p.1 = "id") && jsonVal p.2 && jsonFields rest &&
      decide ((p.1 :: rest.map Prod.fst).Nodup)

/-- Store states whose bucket names are pairwise distinct and whose
documents are all well formed. -/
def stWF (st : LSDBState) : Bool :=
  decide ((st.map Prod.fst).Nodup) && st.all (fun p => p.2.all docWF)

/-!
Concrete data of the claims: the four employee documents of the spec's
worked AND/OR example, as `createData` inserts them. -/

/-- Alice: London, IT, 28. -/
def aliceDoc : Doc :=
  [("id", .vStr "e1"), ("name", .vStr "Alice"),
   ("address", .vObj [("city", .vStr "London")]),
   ("group", .vStr "IT"), ("age", .vNum 28)]

/-- Bob: Paris, HR, 35. -/
def bobDoc : Doc :=
  [("id", .vStr "e2"), ("name", .vStr "Bob"),
   ("address", .vObj [("city", .vStr "Paris")]),
   ("group", .vStr "HR"), ("age", .vNum 35)]

/-- Charlie: London, HR, 40. -/
def charlieDoc : Doc :=
  [("id", .vStr "e3"), ("name", .vStr "Charlie"),
   ("address", .vObj [("city", .vStr "London")]),
   ("group", .vStr "HR"), ("age", .vNum 40)]

/-- David: London, IT, 22. -/
def davidDoc : Doc :=
  [("id", .vStr "e4"), ("name", .vStr "David"),
   ("address", .vObj [("city", .vStr "London")]),
   ("group", .vStr "IT"), ("age", .vNum 22)]

/-- The employee bucket holding the four documents in insertion order. -/
def employeeState : LSDBState :=
  [("employee", [aliceDoc, bobDoc, charlieDoc, davidDoc])]

/-- The spec's AND+OR query: `where city=London, where group=IT,
orGroup [group=HR, age>=35]`. -/
def demoAndOrQuery : LSDBQuery :=
  LSDBQuery.orGroup
    (LSDBQuery.whereF
      (LSDBQuery.whereF (LSDBQuery.new "employee") "address.city" "eq" (.vStr "London"))
      "group" "eq" (.vStr "IT"))
    [⟨"group", "eq", .vStr "HR"⟩, ⟨"age", "gte", .vNum 35⟩]

/-!
Association-list lemmas shared by several claims.
-/

theorem alookup_append {α : Type} (l1 l2 : List (String × α)) (k : String) :
    alookup (l1 ++ l2) k = (alookup l1 k).or (alookup l2 k) := by
  induction l1 with
  | nil => simp [alookup]
  | cons p rest ih =>
    by_cases h : p.1 = k
    · simp [alookup, h]
    · simp [alookup, h, ih]

theorem alookup_eq_none_of_not_mem {α : Type} {l : List (String × α)} {k : String}
    (h : k ∉ l.map Prod.fst) : alookup l k = none := by
  induction l with
  | nil => rfl
  | cons p rest ih =>
    rw [List.map_cons, List.mem_cons] at h
    push_neg at h
    have hne : ¬ p.1 = k := fun hh => h.1 hh.symm
    simp only [alookup, if_neg hne]
    exact ih h.2

theorem alookup_isSome_iff_mem {α : Type} {l : List (String × α)} {k : String} :
    (alookup l k).isSome = true ↔ k ∈ l.map Prod.fst := by
  induction l with
  | nil => simp [alookup]
  | cons p rest ih =>
    simp only [alookup, List.map_cons, List.mem_cons]
    by_cases h : p.1 = k
    · rw [if_pos h]
      simp [h]
    · rw [if_neg h, ih]
      have hne : ¬ k = p.1 := fun hh => h hh.symm
      exact (or_iff_right hne).symm

theorem any_key_eq_isSome {α : Type} (l : List (String × α)) (k : String) :
    (l.any (fun p => p.1 = k)) = (alookup l k).isSome := by
  induction l with
  | nil => rfl
  | cons p rest ih =>
    simp only [List.any_cons, alookup]
    by_cases h : p.1 = k
    · rw [if_pos h, decide_eq_true h]
      simp
    · rw [if_neg h, decide_eq_false h, Bool.false_or]
      exact ih

theorem alookup_map_set {α : Type} (l : List (String × α)) (k k' : String) (v : α) :
    alookup (l.map (fun p => if p.1 = k then (k, v) else p)) k'
      = if k' = k then (if (alookup l k).isSome then some v else none)
        else alookup l k' := by
  induction l with
  | nil => by_cases h : k' = k <;> simp [alookup, h]
  | cons p rest ih =>
    simp only [List.map_cons]
    by_cases hp : p.1 = k
    · rw [if_pos hp]
      by_cases hk : k' = k
      · simp [alookup, hp, hk]
      · have h1 : ¬ k = k' := fun hh => hk hh.symm
        have h2 : ¬ p.1 = k' := fun hh => hk (hh.symm.trans hp)
        simp [alookup, h1, h2, ih, hk]
    · rw [if_neg hp]
      by_cases hk : k' = k
      · subst hk
        simp [alookup, hp, ih]
      · by_cases hpk : p.1 = k'
        · simp [alookup, hpk, hk]
        · simp [alookup, hpk, hk, ih]

theorem alookup_assocSet {α : Type} (l : List (String × α)) (k k' : String) (v : α) :
    alookup (assocSet l k v) k' = if k' = k then some v else alookup l k' := by
  unfold assocSet
  by_cases hany : (l.any (fun p => p.1 = k)) = true
  · rw [if_pos hany, alookup_map_set]
    have hs : (alookup l k).isSome = true := by rw [← any_key_eq_isSome]; exact hany
    simp [hs]
  · rw [if_neg hany, alookup_append]
    have hn : alookup l k = none := by
      cases ho : alookup l k with
      | none => rfl
      | some w => exact absurd (by rw [any_key_eq_isSome, ho]; rfl) hany
    by_cases hk : k' = k
    · subst hk
      simp [hn, alookup]
    · have h1 : ¬ k = k' := fun hh => hk hh.symm
      simp [alookup, h1, hk]

theorem assocSet_of_not_mem {α : Type} (l : List (String × α)) (k : String) (v : α)
    (h : k ∉ l.map Prod.fst) : assocSet l k v = l ++ [(k, v)] := by
  unfold assocSet
  rw [if_neg]
  rw [any_key_eq_isSome, alookup_eq_none_of_not_mem h]
  simp

theorem assocSet_append_unique {α : Type} (pre : List (String × α)) (k : String) (v0 v : α)
    (h : k ∉ pre.map Prod.fst) :
    assocSet (pre ++ [(k, v0)]) k v = pre ++ [(k, v)] := by
  unfold assocSet
  rw [if_pos]
  · rw [List.map_append]
    have h1 : pre.map (fun p => if p.1 = k then (k, v) else p) = pre := by
      have := List.map_congr_left (l := pre)
        (f := fun p => if p.1 = k then (k, v) else p) (g := id) ?_
      · rw [this, List.map_id]
      · intro p hp
        have : ¬ p.1 = k := by
          intro hh
          exact h (hh ▸ List.mem_map_of_mem Prod.fst hp)
        simp [this]
    rw [h1]
    simp
  · rw [any_key_eq_isSome, alookup_append, alookup_eq_none_of_not_mem h]
    simp [alookup]

theorem load_save (st : LSDBState) (b : String) (docs : List Doc) :
    LSDB.load (LSDB.save st b docs) b = docs := by
  unfold LSDB.load LSDB.save
  rw [alookup_assocSet]
  simp

theorem alookup_self_of_nodup {α : Type} {st : List (String × α)}
    (h : (st.map Prod.fst).Nodup) : ∀ p ∈ st, alookup st p.1 = some p.2 := by
  induction st with
  | nil => intro p hp; cases hp
  | cons q rest ih =>
    intro p hp
    rw [List.map_cons, List.nodup_cons] at h
    rcases List.mem_cons.mp hp with rfl | hmem
    · simp [alookup]
    · have hq : ¬ q.1 = p.1 := by
        intro hh
        apply h.1
        rw [hh]
        exact List.mem_map_of_mem Prod.fst hmem
      simp [alookup, hq, ih h.2 p hmem]

theorem alookup_spreadFields : ∀ (item base : Doc) (k : String),
    (item.map Prod.fst).Nodup →
    alookup (spreadFields base item) k = (alookup item k).or (alookup base k) := by
  intro item
  induction item with
  | nil => intro base k _; simp [spreadFields, alookup]
  | cons p rest ih =>
    intro base k h
    rw [List.map_cons, List.nodup_cons] at h
    show alookup (spreadFields (assocSet base p.1 p.2) rest) k = _
    rw [ih _ k h.2, alookup_assocSet]
    by_cases hk : k = p.1
    · subst hk
      have hn : alookup rest p.1 = none := alookup_eq_none_of_not_mem h.1
      rw [hn]
      simp [alookup]
    · have h2 : ¬ p.1 = k := fun hh => hk hh.symm
      simp [alookup, hk, h2]

theorem foldl_assocSet_fresh {α : Type} : ∀ (items acc : List (String × α)),
    (∀ k ∈ items.map Prod.fst, k ∉ acc.map Prod.fst) → (items.map Prod.fst).Nodup →
    items.foldl (fun a q => assocSet a q.1 q.2) acc = acc ++ items := by
  intro items
  induction items with
  | nil => intro acc _ _; simp
  | cons q rest ih =>
    intro acc hf hn
    rw [List.map_cons, List.nodup_cons] at hn
    rw [List.foldl_cons]
    have h1 : assocSet acc q.1 q.2 = acc ++ [q] :=
      assocSet_of_not_mem acc q.1 q.2 (hf q.1 (by simp))
    rw [h1, ih (acc ++ [q])]
    · simp
    · intro k hk
      rw [List.map_append, List.mem_append]
      push_neg
      constructor
      · exact hf k (by simp [hk])
      · simp only [List.map_cons, List.map_nil, List.mem_singleton]
        intro hkq
        exact hn.1 (hkq ▸ hk)
    · exact hn.2

theorem spreadFields_insert_eq (g : String) (d : Doc) (h : docWF d = true) :
    spreadFields [("id", .vStr g)] d = d := by
  cases d with
  | nil => simp [docWF] at h
  | cons p rest =>
    obtain ⟨pk, pv⟩ := p
    simp only [docWF, Bool.and_eq_true, decide_eq_true_eq] at h
    obtain ⟨⟨⟨hid, _⟩, _⟩, hnd⟩ := h
    subst hid
    rw [List.nodup_cons] at hnd
    show spreadFields (assocSet [("id", JSVal.vStr g)] "id" pv) rest = ("id", pv) :: rest
    have h0 : assocSet [("id", JSVal.vStr g)] "id" pv = [("id", pv)] := by
      simp [assocSet]
    rw [h0]
    show rest.foldl (fun a q => assocSet a q.1 q.2) [("id", pv)] = ("id", pv) :: rest
    rw [foldl_assocSet_fresh rest [("id", pv)]]
    · simp
    · intro k hk
      simp only [List.map_cons, List.map_nil, List.mem_singleton]
      intro hkp
      exact hnd.1 (hkp ▸ hk)
    · exact hnd.2

/-!
Claim C3: loose equality, negation, and the unknown-operator fallback of
`LSDBQuery._compare`.
-/

/-- Claim C3.  The `eq` operator of the predicate comparison is loose,
type-coercing equality — `compare("3", "eq", 3)` is true while
`compare("3", "eq", 4)` is false — `neq` is the logical negation of
`eq`, and every operator string other than the six known ones behaves
exactly like `eq` (a permissive fallback rather than an error). -/
theorem spec_C3_compare :
    LSDBQuery.compareOp (.vStr "3") "eq" (.vNum 3) = true ∧
    LSDBQuery.compareOp (.vStr "3") "eq" (.vNum 4) = false ∧
    (∀ v e, LSDBQuery.compareOp v "neq" e = !(LSDBQuery.compareOp v "eq" e)) ∧
    (∀ v e op, op ≠ "eq" → op ≠ "neq" → op ≠ "lt" → op ≠ "lte" → op ≠ "gt" → op ≠ "gte" →
      LSDBQuery.compareOp v op e = LSDBQuery.compareOp v "eq" e) := by
  refine ⟨rfl, rfl, ?_, ?_⟩
  · intro v e
    simp [LSDBQuery.compareOp]
  · intro v e op h1 h2 h3 h4 h5 h6
    simp [LSDBQuery.compareOp, h1, h2, h3, h4, h5, h6]

/-- Witness for C3: the unknown operator "between" at concrete operands
falls back to the behaviour of "eq". -/
theorem spec_C3_compare_witness :
    LSDBQuery.compareOp (.vStr "3") "between" (.vNum 3)
      = LSDBQuery.compareOp (.vStr "3") "eq" (.vNum 3) :=
  spec_C3_compare.2.2.2 (.vStr "3") (.vNum 3) "between"
    (by decide) (by decide) (by decide) (by decide) (by decide) (by decide)

/-!
Claim C2: dot-path resolution and ordering comparisons against the
undefined sentinel.
-/

theorem jsLessThan_undefined_left (b : JSVal) : jsLessThan .vUndefined b = none := by
  cases b with
  | vStr s =>
    cases h : jsStringToNumber s <;>
      simp [jsLessThan, jsToPrimitive, jsToNumber, h]
  | vNull => rfl
  | vUndefined => rfl
  | vBool x => rfl
  | vNum n => rfl
  | vObj fields => rfl

theorem jsLessThan_undefined_right (a : JSVal) : jsLessThan a .vUndefined = none := by
  cases a with
  | vStr s =>
    cases h : jsStringToNumber s <;>
      simp [jsLessThan, jsToPrimitive, jsToNumber, h]
  | vNull => rfl
  | vUndefined => rfl
  | vBool x => rfl
  | vNum n => rfl
  | vObj fields => rfl

theorem resolveParts_undefined : ∀ (parts : List String),
    LSDBQuery.resolveParts .vUndefined parts = some .vUndefined := by
  intro parts
  induction parts with
  | nil => rfl
  | cons k rest ih =>
    show LSDBQuery.resolveParts .vUndefined rest = some .vUndefined
    exact ih

theorem resolveParts_eq_amended : ∀ (parts : List String) (obj : JSVal),
    LSDBQuery.resolveParts obj parts = resolveAmendedSpec obj parts := by
  intro parts
  induction parts with
  | nil => intro obj; cases obj <;> rfl
  | cons k rest ih =>
    intro obj
    cases obj with
    | vObj fields =>
      show LSDBQuery.resolveParts ((alookup fields k).getD .vUndefined) rest = _
      cases ha : alookup fields k with
      | some w =>
        show LSDBQuery.resolveParts w rest = _
        rw [ih w]
        simp [resolveAmendedSpec, ha]
      | none =>
        show LSDBQuery.resolveParts .vUndefined rest = _
        rw [resolveParts_undefined]
        simp [resolveAmendedSpec, ha]
    | vNull => exact resolveParts_undefined rest
    | vUndefined => exact resolveParts_undefined rest
    | vBool x =>
      cases x with
      | false => exact resolveParts_undefined rest
      | true => rfl
    | vNum n =>
      by_cases hz : n = 0
      · subst hz
        exact resolveParts_undefined rest
      · have ht : (JSVal.vNum n).truthy = true := by simp [JSVal.truthy, hz]
        simp only [LSDBQuery.resolveParts, LSDBQuery.getNestedStep, ht, if_true,
          resolveAmendedSpec]
    | vStr s =>
      by_cases hz : s = ""
      · subst hz
        exact resolveParts_undefined rest
      · have ht : (JSVal.vStr s).truthy = true := by simp [JSVal.truthy, hz]
        simp only [LSDBQuery.resolveParts, LSDBQuery.getNestedStep, ht, if_true,
          resolveAmendedSpec]

/-- Counterexample to C2 as stated.  On the document `{a: 5}` and path
"a.b" the current node 5 is a truthy non-mapping, and the reducer's
`"b" in 5` throws a TypeError: resolution errors (`none`) instead of
yielding the undefined sentinel, contradicting "never an error". -/
theorem spec_C2_counterexample :
    LSDBQuery.getNestedValue (.vObj [("a", .vNum 5)]) "a.b" = none ∧
    LSDBQuery.getNestedValue (.vObj [("a", .vNum 5)]) "a.b" ≠ some .vUndefined := by
  refine ⟨rfl, ?_⟩
  intro h
  rw [show LSDBQuery.getNestedValue (.vObj [("a", .vNum 5)]) "a.b" = none from rfl] at h
  exact Option.noConfusion h

/-- Amended claim C2.  Dot-path resolution splits the path on "." and
walks the document; a step on a mapping descends when the key is
present and stops with the undefined sentinel when it is absent, a step
on a falsy node stops with the undefined sentinel, but a step on a
truthy non-mapping node throws a TypeError (so resolution can error,
contrary to the original claim's "never an error"); and comparing the
undefined sentinel with any of lt/lte/gt/gte yields false for every
expected value, in particular `compare(undefined, "gte", 5)` is false. -/
theorem spec_C2_resolution :
    (∀ (obj : JSVal) (prop : String),
      LSDBQuery.getNestedValue obj prop = resolveAmendedSpec obj (splitDot prop)) ∧
    (∀ e : JSVal,
      LSDBQuery.compareOp .vUndefined "lt" e = false ∧
      LSDBQuery.compareOp .vUndefined "lte" e = false ∧
      LSDBQuery.compareOp .vUndefined "gt" e = false ∧
      LSDBQuery.compareOp .vUndefined "gte" e = false) ∧
    LSDBQuery.compareOp .vUndefined "gte" (.vNum 5) = false := by
  refine ⟨?_, ?_, rfl⟩
  · intro obj prop
    exact resolveParts_eq_amended (splitDot prop) obj
  · intro e
    refine ⟨?_, ?_, ?_, ?_⟩
    · show jsLt .vUndefined e = false
      rw [jsLt, jsLessThan_undefined_left]
      rfl
    · show jsLe .vUndefined e = false
      rw [jsLe, jsLessThan_undefined_right]
    · show jsGt .vUndefined e = false
      rw [jsGt, jsLessThan_undefined_right]
      rfl
    · show jsGe .vUndefined e = false
      rw [jsGe, jsLessThan_undefined_left]

/-!
Claim C1: `execute` and the AND/OR combination.
-/

theorem allE_eq_some_true_iff {α : Type} (f : α → Option Bool) (l : List α) :
    allE f l = some true ↔ ∀ x ∈ l, f x = some true := by
  induction l with
  | nil => simp [allE]
  | cons x rest ih =>
    simp only [allE]
    cases hf : f x with
    | none => simp [hf]
    | some b =>
      cases b with
      | false => simp [hf]
      | true => simp [hf, ih]

theorem anyE_some_true_exists {α : Type} (f : α → Option Bool) (l : List α)
    (h : anyE f l = some true) : ∃ x ∈ l, f x = some true := by
  induction l with
  | nil => simp [anyE] at h
  | cons x rest ih =>
    simp only [anyE] at h
    cases hf : f x with
    | none => rw [hf] at h; simp at h
    | some b =>
      cases b with
      | true => exact ⟨x, List.mem_cons_self x rest, hf⟩
      | false =>
        rw [hf] at h
        simp only at h
        obtain ⟨y, hy, hfy⟩ := ih h
        exact ⟨y, List.mem_cons_of_mem x hy, hfy⟩

theorem anyE_some_false_forall {α : Type} (f : α → Option Bool) (l : List α)
    (h : anyE f l = some false) : ∀ x ∈ l, f x = some false := by
  induction l with
  | nil => intro x hx; cases hx
  | cons x rest ih =>
    simp only [anyE] at h
    intro y hy
    cases hf : f x with
    | none => rw [hf] at h; simp at h
    | some b =>
      cases b with
      | true => rw [hf] at h; simp at h
      | false =>
        rw [hf] at h
        simp only at h
        rcases List.mem_cons.mp hy with rfl | hy2
        · exact hf
        · exact ih h y hy2

theorem anyE_some_true_iff {α : Type} (f : α → Option Bool) (l : List α)
    (h : (anyE f l).isSome = true) :
    anyE f l = some true ↔ ∃ x ∈ l, f x = some true := by
  constructor
  · exact anyE_some_true_exists f l
  · rintro ⟨x, hx, hfx⟩
    cases ho : anyE f l with
    | none => rw [ho] at h; simp at h
    | some b =>
      cases b with
      | true => rfl
      | false =>
        have := anyE_some_false_forall f l ho x hx
        rw [hfx] at this
        exact absurd this (by simp)

theorem filterE_eq {α : Type} (f : α → Option Bool) (l : List α)
    (h : ∀ x ∈ l, (f x).isSome = true) :
    filterE f l = some (l.filter (fun x => decide (f x = some true))) := by
  induction l with
  | nil => simp [filterE]
  | cons x rest ih =>
    have hx := h x (List.mem_cons_self x rest)
    have hrest := ih (fun y hy => h y (List.mem_cons_of_mem x hy))
    cases hf : f x with
    | none => rw [hf] at hx; simp at hx
    | some b =>
      simp only [filterE, hf, hrest, Option.map_some]
      cases b with
      | true => simp [List.filter_cons, hf]
      | false => simp [List.filter_cons, hf]

theorem matches_and_none {q : LSDBQuery} {d : Doc}
    (ha : q.matchesAnd d = none) : q.matches d = none := by
  unfold LSDBQuery.matches
  rw [ha]

theorem matches_and_false {q : LSDBQuery} {d : Doc}
    (ha : q.matchesAnd d = some false) : q.matches d = some false := by
  unfold LSDBQuery.matches
  rw [ha]

theorem matches_and_true {q : LSDBQuery} {d : Doc}
    (ha : q.matchesAnd d = some true) : q.matches d = q.matchesOr d := by
  unfold LSDBQuery.matches
  rw [ha]

theorem matchesOr_of_empty {q : LSDBQuery} (d : Doc)
    (hg : q.orGroups.isEmpty = true) : q.matchesOr d = some true := by
  unfold LSDBQuery.matchesOr
  rw [if_pos hg]

theorem matchesOr_of_nonempty {q : LSDBQuery} (d : Doc)
    (hg : ¬ q.orGroups.isEmpty = true) :
    q.matchesOr d = anyE (fun g => anyE (LSDBQuery.evalFilter d) g) q.orGroups := by
  unfold LSDBQuery.matchesOr
  rw [if_neg hg]

theorem matches_some_true_iff (q : LSDBQuery) (d : Doc)
    (h : (LSDBQuery.matches q d).isSome = true) :
    LSDBQuery.matches q d = some true ↔ q.declMatches d := by
  unfold LSDBQuery.declMatches
  cases ha : q.matchesAnd d with
  | none => rw [matches_and_none ha] at h; simp at h
  | some b =>
    cases b with
    | false =>
      rw [matches_and_false ha]
      have hAnd : ¬ (∀ f ∈ q.filters, LSDBQuery.evalFilter d f = some true) := by
        intro hall
        have htrue : q.matchesAnd d = some true :=
          (allE_eq_some_true_iff _ _).mpr hall
        rw [ha] at htrue
        exact absurd htrue (by simp)
      exact iff_of_false (by simp) (fun hd => hAnd hd.1)
    | true =>
      have hAnd : ∀ f ∈ q.filters, LSDBQuery.evalFilter d f = some true :=
        (allE_eq_some_true_iff _ _).mp ha
      rw [matches_and_true ha] at h ⊢
      by_cases hg : q.orGroups.isEmpty = true
      · rw [matchesOr_of_empty d hg]
        exact iff_of_true rfl ⟨hAnd, Or.inl hg⟩
      · rw [matchesOr_of_nonempty d hg] at h ⊢
        rw [anyE_some_true_iff _ _ h]
        constructor
        · rintro ⟨g, hgmem, hgtrue⟩
          exact ⟨hAnd, Or.inr ⟨g, hgmem, anyE_some_true_exists _ _ hgtrue⟩⟩
        · rintro ⟨-, hor⟩
          rcases hor with hempty | ⟨g, hgmem, f, hfmem, hftrue⟩
          · exact absurd hempty hg
          · cases houter : anyE (fun g => anyE (LSDBQuery.evalFilter d) g) q.orGroups with
            | none => rw [houter] at h; simp at h
            | some ob =>
              cases ob with
              | true => exact (anyE_some_true_iff _ _ h).mp houter
              | false =>
                have hginner := anyE_some_false_forall _ _ houter g hgmem
                have := anyE_some_false_forall _ _ hginner f hfmem
                rw [hftrue] at this
                exact absurd this (by simp)

/-- Counterexample to C1 as stated.  A stored document `{id, a: 5}` and
the query `where("a.b", "eq", 1)` make `execute` throw a TypeError
(resolution applies `in` to the truthy non-object 5), so `execute`
returns no result list at all instead of "exactly the stored documents
for which all AND predicates match". -/
theorem spec_C1_counterexample :
    (LSDBQuery.execute [("emp", [[("id", .vStr "b1"), ("a", .vNum 5)]])]
        (LSDBQuery.whereF (LSDBQuery.new "emp") "a.b" "eq" (.vNum 1))).2 = none := rfl

/-- Amended claim C1.  Provided every predicate evaluation on every
stored document resolves without a TypeError, `execute` returns exactly
the stored documents for which all AND predicates hold and, when at
least one OR-group is present, some OR-group contains some holding
predicate (vacuously true without OR-groups); and on the four employee
documents the AND `[city=London, group=IT]` + OR-group
`[group=HR, age>=35]` query returns the empty result. -/
theorem spec_C1_execute :
    (∀ (st : LSDBState) (q : LSDBQuery),
      (∀ d ∈ (LSDB.allDocs st q.bucket).2, (LSDBQuery.matches q d).isSome = true) →
      (LSDBQuery.execute st q).2
        = some ((LSDB.allDocs st q.bucket).2.filter (fun d => decide (q.declMatches d)))) ∧
    (LSDBQuery.execute employeeState demoAndOrQuery).2 = some [] := by
  constructor
  · intro st q h
    show filterE q.matches (LSDB.allDocs st q.bucket).2 = _
    rw [filterE_eq _ _ h]
    congr 1
    apply List.filter_congr
    intro d hd
    exact decide_eq_decide.mpr (matches_some_true_iff q d (h d hd))
  · rfl

/-- Witness for C1 at the four employee documents: the hypothesis (no
evaluation throws) holds there and the theorem applies. -/
theorem spec_C1_execute_witness :
    (LSDBQuery.execute employeeState demoAndOrQuery).2
      = some ((LSDB.allDocs employeeState demoAndOrQuery.bucket).2.filter
          (fun d => decide (demoAndOrQuery.declMatches d))) :=
  spec_C1_execute.1 employeeState demoAndOrQuery (by decide)

/-!
Claim C5: the two filter operations.
-/

theorem all_eq_decide {α : Type} (f : α → Bool) (l : List α) :
    l.all f = decide (∀ x ∈ l, f x = true) := by
  by_cases h : ∀ x ∈ l, f x = true
  · rw [decide_eq_true h]
    exact List.all_eq_true.mpr h
  · rw [decide_eq_false h]
    cases hall : l.all f with
    | false => rfl
    | true => exact absurd (List.all_eq_true.mp hall) h

/-- Counterexample to C5 as stated.  The same document and the same
single-pair filter `{"address.city": "London"}`: `IDb.filter` (loose
equality on the dot-path-resolved value) keeps Alice, but
`LSDB.filterBy` reads the literal top-level property "address.city"
(which is absent) and compares strictly, so it drops her — `filterBy`
does not do nested dot-path resolution with loose equality. -/
theorem spec_C5_counterexample :
    (LSDB.filterBy [("emp", [aliceDoc])] "emp" [("address.city", .vStr "London")]).2 = [] ∧
    IDb.filter [("emp", [aliceDoc])] "emp" [("address.city", .vStr "London")]
      = .ok [aliceDoc] :=
  ⟨rfl, rfl⟩

/-- Amended claim C5.  `IDb.filter` keeps a record exactly when every
field/value pair of the filter object matches via loose equality
against the dot-path-resolved value; `LSDB.filterBy` instead keeps a
document exactly when every pair matches via strict equality against
the direct (non-nested) top-level field of that literal name. -/
theorem spec_C5_filter :
    (∀ (st : IDbState) (b : String) (fobj : Doc) (recs : List Doc),
      alookup st b = some recs →
      IDb.filter st b fobj = .ok (recs.filter (fun item =>
        decide (∀ p ∈ fobj, jsLooseEq (IDb.looseResolve (.vObj item) p.1) p.2 = true)))) ∧
    (∀ (st : LSDBState) (b : String) (props : Doc),
      LSDB.filterBy st b props = (LSDB.ensure st b,
        (LSDB.load (LSDB.ensure st b) b).filter (fun item =>
          decide (∀ p ∈ props, jsStrictEq ((alookup item p.1).getD .vUndefined) p.2 = true)))) := by
  constructor
  · intro st b fobj recs h
    unfold IDb.filter
    rw [h]
    show Except.ok (recs.filter (fun item =>
      fobj.all (fun p => jsLooseEq (IDb.looseResolve (.vObj item) p.1) p.2))) = _
    exact congrArg Except.ok (List.filter_congr (fun x _ => all_eq_decide _ _))
  · intro st b props
    show (LSDB.ensure st b, (LSDB.load (LSDB.ensure st b) b).filter (fun item =>
      props.all (fun p => jsStrictEq ((alookup item p.1).getD .vUndefined) p.2))) = _
    exact congrArg (Prod.mk _) (List.filter_congr (fun x _ => all_eq_decide _ _))

/-- Witness for C5: the IDb part applied at a one-document store. -/
theorem spec_C5_filter_witness :
    IDb.filter [("emp", [aliceDoc])] "emp" [("group", .vStr "IT")]
      = .ok ([aliceDoc].filter (fun item =>
          decide (∀ p ∈ ([("group", JSVal.vStr "IT")] : Doc),
            jsLooseEq (IDb.looseResolve (.vObj item) p.1) p.2 = true))) :=
  spec_C5_filter.1 [("emp", [aliceDoc])] "emp" [("group", .vStr "IT")] [aliceDoc] rfl

/-!
Claim C4: update semantics.
-/

theorem updateFirst_eq_none {pred : Doc → Bool} {nd : Doc} : ∀ {l : List Doc},
    (∀ d ∈ l, pred d = false) → updateFirst pred nd l = none := by
  intro l
  induction l with
  | nil => intro _; rfl
  | cons d rest ih =>
    intro h
    have hd := h d (List.mem_cons_self d rest)
    simp [updateFirst, hd, ih (fun x hx => h x (List.mem_cons_of_mem d hx))]

theorem updateFirst_eq_some {pred : Doc → Bool} {nd : Doc} :
    ∀ (pre : List Doc) (d : Doc) (post : List Doc),
    (∀ x ∈ pre, pred x = false) → pred d = true →
    updateFirst pred nd (pre ++ d :: post)
      = some (pre ++ spreadFields d nd :: post, spreadFields d nd) := by
  intro pre
  induction pre with
  | nil =>
    intro d post _ hd
    simp [updateFirst, hd]
  | cons x rest ih =>
    intro d post h hd
    have hx := h x (List.mem_cons_self x rest)
    have hr := ih d post (fun y hy => h y (List.mem_cons_of_mem x hy)) hd
    simp [updateFirst, hx, hr]

/-- Counterexample to C4 as stated.  `IDb.update` on a bucket with no
document of id 1 does not fail with NotFound: `store.put` silently
inserts the document and the store state changes. -/
theorem spec_C4_counterexample :
    IDb.update [("users", [])] "users" [("id", .vNum 1), ("name", .vStr "X")]
      = .ok [("users", [[("id", .vNum 1), ("name", .vStr "X")]])] := rfl

/-- Amended claim C4.  For `LSDB`'s `bucket(b).update(id, newData)`:
when no stored document's `id` strictly equals `id`, the call returns
`false` (`none`), inserts nothing and leaves the documents unchanged
(the accessor may still have created the empty bucket); when the first
matching document exists, it is replaced in place by the shallow merge
`{...stored, ...newData}` — a key of `newData` overwrites, a stored key
absent from `newData` survives — and the merged document is returned.
`IDb.update`, by contrast, is IndexedDB `put`: on a missing id it
silently inserts (appends) the document instead of failing with
NotFound. -/
theorem spec_C4_update :
    (∀ (st : LSDBState) (b : String) (id : JSVal) (nd : Doc),
      (∀ d ∈ LSDB.load (LSDB.ensure st b) b,
        jsStrictEq ((alookup d "id").getD .vUndefined) id = false) →
      LSDB.update st b id nd = (LSDB.ensure st b, none)) ∧
    (∀ (st : LSDBState) (b : String) (id : JSVal) (nd : Doc) (pre d post : _),
      LSDB.load (LSDB.ensure st b) b = pre ++ d :: post →
      (∀ x ∈ pre, jsStrictEq ((alookup x "id").getD .vUndefined) id = false) →
      jsStrictEq ((alookup d "id").getD .vUndefined) id = true →
      LSDB.update st b id nd
        = (LSDB.save (LSDB.ensure st b) b (pre ++ spreadFields d nd :: post),
           some (spreadFields d nd))) ∧
    (∀ (d nd : Doc) (k : String), (nd.map Prod.fst).Nodup →
      alookup (spreadFields d nd) k = (alookup nd k).or (alookup d k)) ∧
    (∀ (st : IDbState) (b : String) (data : Doc) (recs : List Doc),
      alookup st b = some recs →
      recs.any (fun r => jsStrictEq (docKey r) (docKey data)) = false →
      IDb.update st b data = .ok (assocSet st b (recs ++ [data]))) := by
  refine ⟨?_, ?_, ?_, ?_⟩
  · intro st b id nd h
    simp only [LSDB.update]
    rw [updateFirst_eq_none h]
  · intro st b id nd pre d post hl hpre hd
    simp only [LSDB.update]
    rw [hl, updateFirst_eq_some pre d post hpre hd]
  · intro d nd k h
    exact alookup_spreadFields nd d k h
  · intro st b data recs h hany
    simp [IDb.update, IDb.put, h, hany]

/-- Witness for C4: updating the role of a stored user merges in place
and returns the merged document. -/
theorem spec_C4_update_witness :
    LSDB.update [("users", [[("id", JSVal.vStr "u1"), ("role", JSVal.vStr "admin")]])]
        "users" (.vStr "u1") [("role", .vStr "editor")]
      = (LSDB.save
          (LSDB.ensure [("users", [[("id", JSVal.vStr "u1"), ("role", JSVal.vStr "admin")]])]
            "users") "users"
          ([] ++ spreadFields [("id", JSVal.vStr "u1"), ("role", JSVal.vStr "admin")]
             [("role", .vStr "editor")] :: []),
         some (spreadFields [("id", JSVal.vStr "u1"), ("role", JSVal.vStr "admin")]
             [("role", .vStr "editor")])) :=
  spec_C4_update.2.1 _ "users" (.vStr "u1") [("role", .vStr "editor")] [] _ []
    rfl (by intro x hx; cases hx) rfl

/-!
Claim C6: insert and id assignment.
-/

/-- Counterexample to C6 as stated.  Two inserts that both supply
`id: "x"` (with distinct generator outputs "g1", "g2") leave the bucket
with two documents carrying the same id: the store does not guarantee
uniqueness of caller-supplied ids. -/
theorem spec_C6_counterexample :
    (LSDB.load (LSDB.insert (LSDB.insert [] "b" "g1" [("id", .vStr "x")]).1 "b" "g2"
        [("id", .vStr "x")]).1 "b").map docKey = [.vStr "x", .vStr "x"] := rfl

/-- Amended claim C6.  `insert` appends exactly one document to the
bucket and returns it; the document's id is the caller-supplied `id`
field when the inserted item carries one (even when it duplicates an
existing id — no uniqueness check is performed), and the generated
UUID-oracle string otherwise, so uniqueness of store-assigned ids rests
entirely on the generator, not on any check by the store. -/
theorem spec_C6_insert :
    ∀ (st : LSDBState) (b gen : String) (item : Doc), (item.map Prod.fst).Nodup →
      alookup (LSDB.insert st b gen item).2 "id"
          = some ((alookup item "id").getD (.vStr gen)) ∧
      LSDB.load (LSDB.insert st b gen item).1 b
          = LSDB.load (LSDB.ensure st b) b ++ [(LSDB.insert st b gen item).2] := by
  intro st b gen item h
  constructor
  · show alookup (spreadFields [("id", .vStr gen)] item) "id" = _
    rw [alookup_spreadFields item _ _ h]
    cases alookup item "id" <;> simp [alookup]
  · show LSDB.load (LSDB.save (LSDB.ensure st b) b
      (LSDB.load (LSDB.ensure st b) b ++ [(LSDB.insert st b gen item).2])) b = _
    rw [load_save]

/-- Witness for C6: inserting an item without an id stores the
generated id "g7" and appends one document. -/
theorem spec_C6_insert_witness :
    alookup (LSDB.insert [] "b" "g7" [("name", .vStr "A")]).2 "id"
        = some ((alookup ([("name", JSVal.vStr "A")] : Doc) "id").getD (.vStr "g7")) ∧
    LSDB.load (LSDB.insert [] "b" "g7" [("name", .vStr "A")]).1 "b"
        = LSDB.load (LSDB.ensure [] "b") "b"
            ++ [(LSDB.insert [] "b" "g7" [("name", .vStr "A")]).2] :=
  spec_C6_insert [] "b" "g7" [("name", .vStr "A")] (by decide)

/-!
Claim C10: the bucket accessor creates the bucket as a side effect.
-/

/-- Claim C10.  Obtaining the bucket accessor runs `_ensure`, so the
bucket exists afterwards and `listBuckets` includes its name; in
particular the read-only `all()` and `filterBy()` on a previously
nonexistent bucket create it as an empty bucket as a side effect. -/
theorem spec_C10_bucketCreation :
    (∀ (st : LSDBState) (name : String),
      (alookup (LSDB.ensure st name) name).isSome = true ∧
      name ∈ LSDB.listBuckets (LSDB.ensure st name)) ∧
    (∀ (st : LSDBState) (name : String), alookup st name = none →
      LSDB.allDocs st name = (st ++ [(name, [])], []) ∧
      (∀ props, LSDB.filterBy st name props = (st ++ [(name, [])], [])) ∧
      name ∈ LSDB.listBuckets (LSDB.allDocs st name).1) := by
  constructor
  · intro st name
    have h1 : (alookup (LSDB.ensure st name) name).isSome = true := by
      unfold LSDB.ensure
      by_cases h : (alookup st name).isSome = true
      · rw [if_pos h]; exact h
      · rw [if_neg h, alookup_append]
        have hnone : alookup st name = none := by
          cases ho : alookup st name with
          | none => rfl
          | some w => rw [ho] at h; simp at h
        rw [hnone]
        simp [alookup]
    exact ⟨h1, alookup_isSome_iff_mem.mp h1⟩
  · intro st name h
    have hens : LSDB.ensure st name = st ++ [(name, [])] := by
      unfold LSDB.ensure
      rw [h]
      rfl
    have hload : LSDB.load (st ++ [(name, [])]) name = [] := by
      unfold LSDB.load
      rw [alookup_append, h]
      simp [alookup]
    refine ⟨?_, ?_, ?_⟩
    · show (LSDB.ensure st name, LSDB.load (LSDB.ensure st name) name) = _
      rw [hens, hload]
    · intro props
      show (LSDB.ensure st name, (LSDB.load (LSDB.ensure st name) name).filter _) = _
      rw [hens, hload]
      simp
    · show name ∈ LSDB.listBuckets (LSDB.ensure st name)
      refine alookup_isSome_iff_mem.mp ?_
      rw [hens, alookup_append, h]
      simp [alookup]

/-- Witness for C10: querying the empty store's "users" bucket creates
it, returns the empty sequence, and lists the bucket afterwards. -/
theorem spec_C10_bucketCreation_witness :
    LSDB.allDocs [] "users" = ([("users", [])], []) ∧
    (∀ props, LSDB.filterBy [] "users" props = ([("users", [])], [])) ∧
    "users" ∈ LSDB.listBuckets (LSDB.allDocs [] "users").1 :=
  spec_C10_bucketCreation.2 [] "users" rfl

/-!
Claim C8: transactions.
-/

/-- Counterexample to C8 as stated.  A transaction over two existing
empty buckets that queues one insert into each and then throws "err"
does not leave "both target buckets with zero net new documents": the
promise rejects with the error, but both queued inserts commit. -/
theorem spec_C8_counterexample :
    IDb.transaction [("a", []), ("b", [])] ["a", "b"]
        [.add "a" [("id", .vNum 3)], .add "b" [("id", .vNum 4)]] (some "err")
      = ([("a", [[("id", .vNum 3)]]), ("b", [[("id", .vNum 4)]])], .error "err") := rfl

/-- Amended claim C8.  When every named bucket exists and the queued
requests all succeed, a mutator that throws after queuing them makes
the promise reject with the mutator's error — but the queued operations
still take effect, because the `catch` block only rejects the promise
and never aborts the IndexedDB transaction, which auto-commits. -/
theorem spec_C8_transaction :
    ∀ (st : IDbState) (buckets : List String) (ops : List TxOp) (e : String) (st1 : IDbState),
      buckets.all (fun b => (alookup st b).isSome) = true →
      ops.foldlM IDb.applyTxOp st = some st1 →
      IDb.transaction st buckets ops (some e) = (st1, .error e) := by
  intro st buckets ops e st1 hb hf
  unfold IDb.transaction
  rw [if_pos hb, hf]

/-- Witness for C8: the two-insert-then-throw transaction at concrete
buckets commits both inserts and rejects with "boom". -/
theorem spec_C8_transaction_witness :
    IDb.transaction [("a", []), ("b", [])] ["a", "b"]
        [.add "a" [("id", .vNum 1)], .add "b" [("id", .vNum 2)]] (some "boom")
      = ([("a", [[("id", .vNum 1)]]), ("b", [[("id", .vNum 2)]])], .error "boom") :=
  spec_C8_transaction [("a", []), ("b", [])] ["a", "b"]
    [.add "a" [("id", .vNum 1)], .add "b" [("id", .vNum 2)]] "boom"
    [("a", [[("id", .vNum 1)]]), ("b", [[("id", .vNum 2)]])] rfl rfl

/-!
Claim C9: ordering.
-/

theorem mergeSort_filter_stable {α : Type} (le : α → α → Bool)
    (htrans : ∀ (a b c : α), le a b → le b c → le a c)
    (htotal : ∀ (a b : α), le a b || le b a)
    (l : List α) (p : α → Bool)
    (hp : ∀ a b, p a = true → p b = true → le a b = true) :
    (l.mergeSort le).filter p = l.filter p := by
  have hperm : ((l.mergeSort le).filter p).Perm (l.filter p) :=
    (List.mergeSort_perm l le).filter p
  have hpw : (l.filter p).Pairwise (fun a b => le a b = true) := by
    apply List.pairwise_of_forall_mem_list
    intro a ha b hb
    exact hp a b (List.of_mem_filter ha) (List.of_mem_filter hb)
  have hsub : List.Sublist (l.filter p) (l.mergeSort le) :=
    List.sublist_mergeSort htrans htotal hpw (List.filter_sublist l)
  have hidem : (l.filter p).filter p = l.filter p :=
    List.filter_eq_self.mpr (fun a ha => List.of_mem_filter ha)
  have hsub2 : List.Sublist (l.filter p) ((l.mergeSort le).filter p) := by
    have := hsub.filter p
    rwa [hidem] at this
  exact (hsub2.eq_of_length hperm.length_eq.symm).symm

/-- Claim C9.  `orderBy` returns the sequence sorted ascending by the
selected comparable key and `orderByDescending` sorted descending, both
as permutations of the input, and both stably: for every key value, the
subsequence of elements whose key equals it is unchanged. -/
theorem spec_C9_orderBy {α K : Type} [LinearOrder K] (q : LSQuery α) (sel : α → K) :
    ((q.orderBy sel).data.Pairwise (fun a b => sel a ≤ sel b) ∧
     (q.orderBy sel).data.Perm q.data ∧
     (∀ k : K, (q.orderBy sel).data.filter (fun a => decide (sel a = k))
        = q.data.filter (fun a => decide (sel a = k)))) ∧
    ((q.orderByDescending sel).data.Pairwise (fun a b => sel b ≤ sel a) ∧
     (q.orderByDescending sel).data.Perm q.data ∧
     (∀ k : K, (q.orderByDescending sel).data.filter (fun a => decide (sel a = k))
        = q.data.filter (fun a => decide (sel a = k)))) := by
  have t1 : ∀ (a b c : α), decide (sel a ≤ sel b) → decide (sel b ≤ sel c) →
      decide (sel a ≤ sel c) := by
    intro a b c hab hbc
    exact decide_eq_true (le_trans (of_decide_eq_true hab) (of_decide_eq_true hbc))
  have t2 : ∀ (a b : α), decide (sel a ≤ sel b) || decide (sel b ≤ sel a) := by
    intro a b
    rcases le_total (sel a) (sel b) with h | h <;> simp [h]
  have d1 : ∀ (a b c : α), decide (sel b ≤ sel a) → decide (sel c ≤ sel b) →
      decide (sel c ≤ sel a) := by
    intro a b c hab hbc
    exact decide_eq_true (le_trans (of_decide_eq_true hbc) (of_decide_eq_true hab))
  have d2 : ∀ (a b : α), decide (sel b ≤ sel a) || decide (sel a ≤ sel b) := by
    intro a b
    rcases le_total (sel a) (sel b) with h | h <;> simp [h]
  refine ⟨⟨?_, ?_, ?_⟩, ⟨?_, ?_, ?_⟩⟩
  · exact (List.sorted_mergeSort t1 t2 q.data).imp (fun h => of_decide_eq_true h)
  · exact List.mergeSort_perm q.data _
  · intro k
    apply mergeSort_filter_stable _ t1 t2
    intro a b ha hb
    exact decide_eq_true (by rw [of_decide_eq_true ha, of_decide_eq_true hb])
  · exact (List.sorted_mergeSort d1 d2 q.data).imp (fun h => of_decide_eq_true h)
  · exact List.mergeSort_perm q.data _
  · intro k
    apply mergeSort_filter_stable _ d1 d2
    intro a b ha hb
    exact decide_eq_true (by rw [of_decide_eq_true ha, of_decide_eq_true hb])

/-- Witness for C9: the theorem applied to the concrete sequence
`[2, 1]` with the identity key. -/
theorem spec_C9_orderBy_witness :
    (((LSQuery.mk [2, 1]).orderBy (fun n : Nat => n)).data.Pairwise (fun a b => a ≤ b) ∧
     ((LSQuery.mk [2, 1]).orderBy (fun n : Nat => n)).data.Perm [2, 1] ∧
     (∀ k : Nat, ((LSQuery.mk [2, 1]).orderBy (fun n : Nat => n)).data.filter
          (fun a => decide (a = k))
        = [2, 1].filter (fun a => decide (a = k)))) ∧
    (((LSQuery.mk [2, 1]).orderByDescending (fun n : Nat => n)).data.Pairwise
        (fun a b => b ≤ a) ∧
     ((LSQuery.mk [2, 1]).orderByDescending (fun n : Nat => n)).data.Perm [2, 1] ∧
     (∀ k : Nat, ((LSQuery.mk [2, 1]).orderByDescending (fun n : Nat => n)).data.filter
          (fun a => decide (a = k))
        = [2, 1].filter (fun a => decide (a = k)))) :=
  spec_C9_orderBy (LSQuery.mk [2, 1]) (fun n => n)

/-!
Claim C7: dump followed by a full-overwrite import.
-/

theorem assocRemove_of_not_mem {α : Type} (l : List (String × α)) (k : String)
    (h : k ∉ l.map Prod.fst) : assocRemove l k = l := by
  unfold assocRemove
  apply List.filter_eq_self.mpr
  intro p hp
  have : p.1 ≠ k := by
    intro hh
    exact h (hh ▸ List.mem_map_of_mem Prod.fst hp)
  simp [this]

theorem nodup_move_to_end {γ : Type} (x : γ) (l1 l2 : List γ)
    (h : (x :: (l1 ++ l2)).Nodup) : (l1 ++ (l2 ++ [x])).Nodup := by
  have hperm : (x :: (l1 ++ l2)).Perm (l1 ++ (l2 ++ [x])) := by
    have h2 : l1 ++ (l2 ++ [x]) = (l1 ++ l2) ++ [x] := (List.append_assoc l1 l2 [x]).symm
    rw [h2]
    exact (List.perm_append_singleton x (l1 ++ l2)).symm
  exact hperm.nodup h

theorem insertLoop_fresh : ∀ (items : List Doc) (pre : LSDBState) (b : String)
    (gens : Nat → String) (c : Nat) (cur : List Doc),
    b ∉ pre.map Prod.fst → (∀ d ∈ items, docWF d = true) →
    LSDBUtil.insertLoop (pre ++ [(b, cur)]) b gens c items
      = (pre ++ [(b, cur ++ items)], c + items.length) := by
  intro items
  induction items with
  | nil =>
    intro pre b gens c cur _ _
    simp [LSDBUtil.insertLoop]
  | cons item rest ih =>
    intro pre b gens c cur hb hwf
    have hwf1 := hwf item (List.mem_cons_self item rest)
    have hlook : alookup (pre ++ [(b, cur)]) b = some cur := by
      rw [alookup_append, alookup_eq_none_of_not_mem hb]
      simp [alookup]
    have hens : LSDB.ensure (pre ++ [(b, cur)]) b = pre ++ [(b, cur)] := by
      unfold LSDB.ensure
      rw [hlook]
      rfl
    have hloadv : LSDB.load (pre ++ [(b, cur)]) b = cur := by
      unfold LSDB.load
      rw [hlook]
      rfl
    have hins : LSDB.insert (pre ++ [(b, cur)]) b (gens c) item
        = (LSDB.save (pre ++ [(b, cur)]) b (cur ++ [item]), item) := by
      simp only [LSDB.insert]
      rw [hens, hloadv, spreadFields_insert_eq _ _ hwf1]
    have hsave : LSDB.save (pre ++ [(b, cur)]) b (cur ++ [item]) = pre ++ [(b, cur ++ [item])] := by
      unfold LSDB.save
      exact assocSet_append_unique pre b cur (cur ++ [item]) hb
    show LSDBUtil.insertLoop (LSDB.insert (pre ++ [(b, cur)]) b (gens c) item).1
      b gens (c + 1) rest = _
    rw [hins]
    show LSDBUtil.insertLoop (LSDB.save (pre ++ [(b, cur)]) b (cur ++ [item])) b gens
      (c + 1) rest = _
    rw [hsave, ih pre b gens (c + 1) (cur ++ [item]) hb
      (fun d hd => hwf d (List.mem_cons_of_mem item hd))]
    have h1 : (cur ++ [item]) ++ rest = cur ++ item :: rest := by simp
    have h2 : c + 1 + rest.length = c + (item :: rest).length := by
      simp [List.length_cons]
      omega
    rw [h1, h2]

theorem importGo : ∀ (snap done : LSDBState) (gens : Nat → String) (c : Nat),
    ((snap ++ done).map Prod.fst).Nodup →
    (∀ p ∈ snap, ∀ d ∈ p.2, docWF d = true) →
    (snap.foldl (fun acc p =>
        let st1 := LSDB.deleteBucket acc.1 p.1
        let st2 := LSDB.createBucket st1 p.1
        LSDBUtil.insertLoop st2 p.1 gens acc.2 p.2) (snap ++ done, c)).1
      = done ++ snap := by
  intro snap
  induction snap with
  | nil => intro done gens c _ _; simp
  | cons bp rest ih =>
    intro done gens c hnd hwf
    obtain ⟨b, items⟩ := bp
    have hnd' : (b :: ((rest ++ done).map Prod.fst)).Nodup := by
      rw [List.cons_append, List.map_cons] at hnd
      exact hnd
    rw [List.nodup_cons] at hnd'
    obtain ⟨hb, hndrest⟩ := hnd'
    have hwfitems : ∀ d ∈ items, docWF d = true :=
      hwf (b, items) (List.mem_cons_self _ rest)
    have hdel : LSDB.deleteBucket ((b, items) :: rest ++ done) b = rest ++ done := by
      unfold LSDB.deleteBucket assocRemove
      rw [List.cons_append, List.filter_cons]
      have hkeep : ∀ p ∈ rest ++ done, (!decide (p.1 = b)) = true := by
        intro p hp
        have : p.1 ≠ b := by
          intro hh
          exact hb (hh ▸ List.mem_map_of_mem Prod.fst hp)
        simp [this]
      simp [List.filter_eq_self.mpr hkeep]
    have hcreate : LSDB.createBucket (rest ++ done) b = (rest ++ done) ++ [(b, [])] := by
      unfold LSDB.createBucket LSDB.ensure
      rw [alookup_eq_none_of_not_mem hb]
      rfl
    have hloop := insertLoop_fresh items (rest ++ done) b gens c [] hb hwfitems
    rw [List.foldl_cons]
    show (rest.foldl _ (LSDBUtil.insertLoop
        (LSDB.createBucket (LSDB.deleteBucket ((b, items) :: rest ++ done) b) b)
        b gens c items)).1 = done ++ (b, items) :: rest
    rw [hdel, hcreate, hloop]
    have hstate : (rest ++ done) ++ [(b, [] ++ items)] = rest ++ (done ++ [(b, items)]) := by
      rw [List.append_assoc]
      rfl
    rw [hstate]
    have hnd2 : ((rest ++ (done ++ [(b, items)])).map Prod.fst).Nodup := by
      rw [List.map_append, List.map_append, List.map_cons, List.map_nil]
      apply nodup_move_to_end b (rest.map Prod.fst) (done.map Prod.fst)
      rw [← List.map_append]
      exact List.nodup_cons.mpr ⟨hb, hndrest⟩
    rw [ih (done ++ [(b, items)]) gens (c + items.length) hnd2
      (fun p hp => hwf p (List.mem_cons_of_mem _ hp))]
    simp

theorem dump_eq_self (st : LSDBState) (h : (st.map Prod.fst).Nodup) :
    LSDBUtil.dump st = st := by
  unfold LSDBUtil.dump LSDB.listBuckets
  rw [List.map_map]
  have hpt : ∀ p ∈ st, ((fun b => (b, (LSDB.allDocs st b).2)) ∘ Prod.fst) p = id p := by
    intro p hp
    have hl : alookup st p.1 = some p.2 := alookup_self_of_nodup h p hp
    have hens : LSDB.ensure st p.1 = st := by
      unfold LSDB.ensure
      rw [hl]
      rfl
    show (p.1, (LSDB.allDocs st p.1).2) = p
    have hv : (LSDB.allDocs st p.1).2 = p.2 := by
      show LSDB.load (LSDB.ensure st p.1) p.1 = p.2
      rw [hens]
      unfold LSDB.load
      rw [hl]
      rfl
    rw [hv]
  rw [List.map_congr_left hpt, List.map_id]

/-- Claim C7.  For a well-formed store state (pairwise distinct bucket
names; every document as `insert` produced it: id field first, pairwise
distinct field names, JSON values), dumping every bucket and importing
the snapshot with `overwrite = true` reproduces the state exactly: each
bucket is deleted, recreated, and its documents re-inserted with ids
and field values preserved verbatim, whatever the UUID oracle yields. -/
theorem spec_C7_roundtrip :
    ∀ (st : LSDBState) (gens : Nat → String), stWF st = true →
      LSDBUtil.overwriteImport (LSDBUtil.dump st) st gens = st := by
  intro st gens h
  unfold stWF at h
  rw [Bool.and_eq_true] at h
  obtain ⟨hnd, hwf⟩ := h
  rw [decide_eq_true_eq] at hnd
  have hwf2 : ∀ p ∈ st, ∀ d ∈ p.2, docWF d = true := by
    intro p hp d hd
    exact List.all_eq_true.mp (List.all_eq_true.mp hwf p hp) d hd
  rw [dump_eq_self st hnd]
  unfold LSDBUtil.overwriteImport
  have hgo := importGo st [] gens 0 (by rw [List.append_nil]; exact hnd) hwf2
  rw [List.append_nil] at hgo
  exact hgo

/-- Witness for C7: the four-employee store round-trips exactly under a
constant generator oracle. -/
theorem spec_C7_roundtrip_witness :
    LSDBUtil.overwriteImport (LSDBUtil.dump employeeState) employeeState (fun _ => "u")
      = employeeState :=
  spec_C7_roundtrip employeeState (fun _ => "u") (by decide)
